import Mathlib

/-!
Shallow embedding of the trading-backend quote-delivery core:
the Socket.IO subscription hub (`src/services/websocketService.js`),
the Yahoo quote adapter (`src/services/yahooFinanceService.js`),
the Redis-backed cache (`src/services/cacheService.js`),
the master-ticker query (`src/services/tickerService.js`),
the periodic fetch loop (`src/server.js`) and the REST stock
controller (`src/controllers/stockController.js`).

JavaScript objects are modelled as insertion-ordered association
lists with unique keys (`setKey`/`getKey`/`hasKey`); JS `Set` is an
insertion-ordered duplicate-free list (`insertSet`); dynamically
typed client input is the `JVal` type with JS truthiness.
External effects (the Prisma query, the upstream Yahoo call, the
Redis round trip) are passed in as explicit outcome parameters.
-/

/-- Model of a dynamically typed JavaScript value as received from a client. -/
inductive JVal where
  | str (s : String)
  | num (n : Int)
  | boolean (b : Bool)
  | nullv
  | undef
  deriving Repr, DecidableEq

/-- JS truthiness: empty string, 0, false, null, undefined are falsy. -/
def JVal.truthy : JVal → Bool
  | .str s => s ≠ ""
  | .num n => n ≠ 0
  | .boolean b => b
  | .nullv => false
  | .undef => false

/-- Membership-free insertion into a JS `Set` modelled as an ordered duplicate-free list. -/
def insertSet (l : List String) (x : String) : List String :=
  if x ∈ l then l else l ++ [x]

/-- Removal from a JS `Set` (`Set.prototype.delete`). -/
def removeSet (l : List String) (x : String) : List String :=
  l.filter (fun y => y ≠ x)

/-- Assignment `obj[k] = v` on a JS object modelled as an ordered association list:
overwrite the existing entry in place, else append. -/
def setKey {α : Type} : List (String × α) → String → α → List (String × α)
  | [], k, v => [(k, v)]
  | (k', v') :: rest, k, v =>
      if k' = k then (k, v) :: rest else (k', v') :: setKey rest k v

/-- Key lookup `obj[k]` on a JS object. -/
def getKey {α : Type} : List (String × α) → String → Option α
  | [], _ => none
  | (k', v') :: rest, k => if k' = k then some v' else getKey rest k

/-- Key-presence test `obj.hasOwnProperty(k)` on a JS object. -/
def hasKey {α : Type} : List (String × α) → String → Bool
  | [], _ => false
  | (k', _) :: rest, k => k' = k || hasKey rest k

/-! ## Quote data (`src/services/yahooFinanceService.js`) -/

/-- Raw `regularMarketTime` value as delivered by the yahoo-finance2 library:
a valid `Date`, an invalid `Date`, a finite number of epoch seconds, a
non-finite number, some other type, or absent. -/
inductive RawTime where
  | dateValid (ms : Int)
  | dateInvalid
  | numFinite (sec : Int)
  | numNonFinite
  | otherType
  | absent
  deriving Repr, DecidableEq

/-- Timestamp normalization of `fetchStockData`: a valid `Date` passes through,
a truthy finite number of epoch seconds is converted via `new Date(sec * 1000)`
(invalid beyond the JS `Date` range), and everything else becomes `null`. -/
def normalizeTime : RawTime → Option Int
  | .dateValid ms => some ms
  | .dateInvalid => none
  | .numFinite sec =>
      if sec = 0 then none
      else if (sec * 1000).natAbs ≤ 8640000000000000 then some (sec * 1000) else none
  | .numNonFinite => none
  | .otherType => none
  | .absent => none

/-- Raw quote object returned by `yahooFinance.quote` for one symbol. -/
structure YQuote where
  symbol : Option String
  shortName : String
  regularMarketPrice : Int
  regularMarketChange : Int
  regularMarketChangePercent : Int
  regularMarketVolume : Nat
  marketState : String
  regularMarketTime : RawTime
  deriving Repr, DecidableEq

/-- Processed quote object as cached and broadcast by the backend. -/
structure Quote where
  price : Int
  change : Int
  changePercent : Int
  volume : Nat
  marketState : String
  symbol : String
  shortName : String
  timestamp : Option Int
  deriving Repr, DecidableEq

/-- Field mapping performed by `fetchStockData` for one valid raw quote. -/
def processQuote (q : YQuote) (sym : String) : Quote :=
  { price := q.regularMarketPrice
    change := q.regularMarketChange
    changePercent := q.regularMarketChangePercent
    volume := q.regularMarketVolume
    marketState := q.marketState
    symbol := sym
    shortName := q.shortName
    timestamp := normalizeTime q.regularMarketTime }

/-- Outcome of the single batched `yahooFinance.quote(tickers, queryOptions)` call:
either a thrown error, or a list of results in which individual entries may be
falsy (modelled as `none`). -/
abbrev UpstreamOutcome := Except Unit (List (Option YQuote))

/-- Embedding of `fetchStockData` (`src/services/yahooFinanceService.js`):
empty input returns `{}`; otherwise the upstream batch call either succeeds
(each valid quote with a truthy `symbol` is processed into `results`, then the
final check marks every requested-but-missing ticker as `null`) or throws
(the catch block marks every requested ticker as `null`). The returned object
maps tickers to a processed quote or `null`. -/
def fetchStockData (tickers : List String) (upstream : UpstreamOutcome) :
    List (String × Option Quote) :=
  if tickers.isEmpty then []
  else
    match upstream with
    | .error _ => tickers.foldl (fun m t => setKey m t none) []
    | .ok raw =>
        let quotesArray := raw.filterMap id
        let results := quotesArray.foldl
          (fun m q =>
            match q.symbol with
            | some sym => if sym ≠ "" then setKey m sym (some (processQuote q sym)) else m
            | none => m) []
        tickers.foldl (fun m t => if hasKey m t then m else setKey m t none) results

/-! ## WebSocket hub (`src/services/websocketService.js`) -/

/-- Socket.IO room name used by `handleSubscription`, `handleUnsubscription`
and `broadcastStockUpdate`: the template literal `stock_${ticker}`. -/
def roomName (ticker : String) : String := "stock_" ++ ticker

/-- Per-socket state: the `socket.subscribedTickers` set and the set of
Socket.IO rooms the socket has joined. -/
structure SocketState where
  subscribedTickers : List String
  rooms : List String
  deriving Repr, DecidableEq

/-- Fresh socket state created in the `connection` handler. -/
def freshSocket : SocketState := { subscribedTickers := [], rooms := [] }

/-- Messages the server emits to a client. -/
inductive ServerMsg where
  | welcome (msg : String)
  | subscribed (tickers : List JVal)
  | unsubscribed (tickers : List JVal)
  | stock_update (ticker : String) (data : Quote)
  deriving Repr, DecidableEq

/-- Payload of a `subscribe`/`unsubscribe` event: an array or a single value. -/
inductive SubPayload where
  | arr (ts : List JVal)
  | single (t : JVal)
  deriving Repr, DecidableEq

/-- The expression `Array.isArray(tickers) ? tickers : [tickers].filter(t => t)`. -/
def tickersToProcess : SubPayload → List JVal
  | .arr ts => ts
  | .single t => if t.truthy then [t] else []

/-- Loop body of `handleSubscription`: a truthy string joins the room
`stock_${ticker}` and is added to `socket.subscribedTickers`; anything else
is logged as invalid and skipped. -/
def subStep (st : SocketState) (t : JVal) : SocketState :=
  match t with
  | .str s =>
      if s ≠ "" then
        { st with
          rooms := insertSet st.rooms (roomName s)
          subscribedTickers := insertSet st.subscribedTickers s }
      else st
  | _ => st

/-- Embedding of `handleSubscription`: an empty processed list returns without
emitting; otherwise each entry is handled by `subStep` and the raw processed
list is echoed back in the `subscribed` acknowledgement. -/
def handleSubscription (st : SocketState) (p : SubPayload) : SocketState × List ServerMsg :=
  let ts := tickersToProcess p
  if ts.isEmpty then (st, [])
  else (ts.foldl subStep st, [ServerMsg.subscribed ts])

/-- Loop body of `handleUnsubscription`: a truthy string leaves the room
`stock_${ticker}` and is removed from `socket.subscribedTickers`. -/
def unsubStep (st : SocketState) (t : JVal) : SocketState :=
  match t with
  | .str s =>
      if s ≠ "" then
        { st with
          rooms := removeSet st.rooms (roomName s)
          subscribedTickers := removeSet st.subscribedTickers s }
      else st
  | _ => st

/-- Embedding of `handleUnsubscription`, symmetric to `handleSubscription`. -/
def handleUnsubscription (st : SocketState) (p : SubPayload) : SocketState × List ServerMsg :=
  let ts := tickersToProcess p
  if ts.isEmpty then (st, [])
  else (ts.foldl unsubStep st, [ServerMsg.unsubscribed ts])

/-- Embedding of `broadcastStockUpdate`: with no initialized server or a
non-truthy-string ticker it does nothing; otherwise it emits a
`stock_update` addressed to room `stock_${ticker}` (ticker used verbatim). -/
def broadcastStockUpdate (ioInitialized : Bool) (ticker : JVal) (data : Quote) :
    Option (String × ServerMsg) :=
  if ioInitialized = false then none
  else
    match ticker with
    | .str s => if s ≠ "" then some (roomName s, ServerMsg.stock_update s data) else none
    | _ => none

/-! ## Authentication middleware (`io.use` in `src/services/websocketService.js`) -/

/-- Outcome of `jwt.verify(token, JWT_SECRET, cb)` for a presented token. -/
inductive VerifyOutcome where
  | ok (userId : Nat)
  | expired
  | badSignature
  | malformed
  deriving Repr, DecidableEq

/-- Embedding of the `io.use` middleware: with no `JWT_SECRET` configured every
connection is allowed without identity; with a secret configured, a missing
token or any `jwt.verify` error calls `next(new Error(...))` (rejection),
and a valid token attaches the user id and calls `next()`. -/
def ioAuthMiddleware (jwtSecret : Option String) (token : Option String)
    (verify : VerifyOutcome) : Except String (Option Nat) :=
  match jwtSecret with
  | none => .ok none
  | some _ =>
      match token with
      | none => .error "Authentication error: No token provided"
      | some _ =>
          match verify with
          | .ok uid => .ok (some uid)
          | .expired => .error "Authentication error: jwt expired"
          | .badSignature => .error "Authentication error: invalid signature"
          | .malformed => .error "Authentication error: jwt malformed"

/-- Embedding of a connection attempt: the `connection` handler (which creates
`socket.subscribedTickers` and emits the `welcome` message) only runs when the
middleware called `next()` with no error; a middleware error refuses the
connection, so no socket state exists and no message is emitted. -/
def connectionAttempt (jwtSecret : Option String) (token : Option String)
    (verify : VerifyOutcome) (sid : String) : Option SocketState × List ServerMsg :=
  match ioAuthMiddleware jwtSecret token verify with
  | .error _ => (none, [])
  | .ok uid =>
      (some freshSocket,
        [ServerMsg.welcome ("Connected with ID: " ++ sid ++ ". Welcome User " ++
          (match uid with | some u => toString u | none => "") ++ "!")])

/-! ## Cache service (`src/services/cacheService.js`) -/

/-- Fixed TTL from `cacheService.js`. -/
def CACHE_EXPIRY_SECONDS : Nat := 300

/-- State of the Redis store visible to the cache layer: for each key, the
stored quote and the write time (seconds). -/
structure CacheState where
  entries : List (String × (Quote × Nat))
  deriving Repr, DecidableEq

/-- Modelled from the spec: Redis `SET key value EX ttl` (the store itself is
not part of this repository). The entry records the written value and the
write time; expiry is checked at read time. -/
def redisSetEx (st : CacheState) (now : Nat) (key : String) (q : Quote) : CacheState :=
  ⟨setKey st.entries key (q, now)⟩

/-- Modelled from the spec: Redis `GET key` under TTL expiry — the read is a
miss exactly when it occurs at least `CACHE_EXPIRY_SECONDS` after the write. -/
def redisGet (st : CacheState) (now : Nat) (key : String) : Option Quote :=
  match getKey st.entries key with
  | some (q, wt) => if now < wt + CACHE_EXPIRY_SECONDS then some q else none
  | none => none

/-- Single-key write performed by the `cacheStockUpdates` pipeline for one
ticker: `pipeline.set('stock:' + ticker, JSON.stringify(data), 'EX', 300)`. -/
def cachePut (st : CacheState) (now : Nat) (ticker : String) (q : Quote) : CacheState :=
  redisSetEx st now ("stock:" ++ ticker) q

/-- Embedding of `cacheStockUpdates`: empty input returns immediately; the
pipeline collects a `SET ... EX` per non-null entry; if any command was queued,
`pipeline.exec()` either succeeds (all entries written) or throws, and the
throw is caught and logged inside this function (nothing written, normal
return). The result lists the entries actually written to the store. -/
def cacheStockUpdates (stockData : List (String × Option Quote)) (storeOk : Bool) :
    List (String × Quote) :=
  if stockData.isEmpty then []
  else
    let toCache := stockData.filterMap (fun p => p.2.map (fun q => (p.1, q)))
    if 0 < toCache.length then
      match (if storeOk then Except.ok toCache else Except.error () : Except Unit _) with
      | .ok written => written
      | .error _ => []
    else []

/-- Embedding of `getCachedStockData`: a Redis error is caught and yields
`null`; otherwise the value under key `stock:<ticker>` is returned, `null`
on a miss. A miss is an ordinary `none` result, never a thrown error. -/
def getCachedStockData (st : CacheState) (now : Nat) (ticker : String)
    (redisOk : Bool) : Option Quote :=
  if redisOk then redisGet st now ("stock:" ++ ticker) else none

/-! ## Ticker service (`src/services/tickerService.js`) -/

/-- Embedding of `getMasterTickerList`: the Prisma `findMany` either returns
the distinct ticker rows or throws; the catch block returns an empty set, so
the function never throws. `new Set(...)` keeps first-occurrence order. -/
def getMasterTickerList (db : Except Unit (List String)) : List String :=
  match db with
  | .ok rows => rows.foldl insertSet []
  | .error _ => []

/-! ## Periodic fetch loop (`src/server.js`) -/

/-- Observable effects of one scheduler tick: the entries written to the cache
and the per-symbol broadcasts issued. -/
structure TickEffects where
  cached : List (String × Quote)
  published : List (String × Quote)
  deriving Repr, DecidableEq

/-- The `validUpdates` partition of `runPeriodicFetch`:
`Object.entries(results).filter(([_, data]) => data !== null)`. -/
def validEntries (results : List (String × Option Quote)) : List (String × Quote) :=
  results.filterMap (fun p => p.2.map (fun q => (p.1, q)))

/-- Embedding of `runPeriodicFetch`: fetch the master ticker list (outside the
try/catch, but `getMasterTickerList` is total); an empty list skips the cycle;
otherwise fetch quotes, keep the non-null entries, cache them in one batched
call (whose store failure is caught inside the cache layer) and broadcast each
valid quote to its room. -/
def runPeriodicFetch (db : Except Unit (List String)) (upstream : UpstreamOutcome)
    (storeOk : Bool) : TickEffects :=
  let tickersToFetch := getMasterTickerList db
  if tickersToFetch.isEmpty then ⟨[], []⟩
  else
    let results := fetchStockData tickersToFetch upstream
    if results.isEmpty then ⟨[], []⟩
    else
      let validUpdates := validEntries results
      if validUpdates.isEmpty then ⟨[], []⟩
      else
        let written := cacheStockUpdates (validUpdates.map (fun p => (p.1, some p.2))) storeOk
        ⟨written, validUpdates⟩

/-! ## Stock search (`src/controllers/stockController.js`) -/

/-- HTTP response of the search handler. -/
inductive SearchResp where
  | okResp (ticker : String) (q : Quote)
  | badRequest
  | notFound
  deriving Repr, DecidableEq

/-- Embedding of `searchStock`: upper-case the route parameter, reject a
missing/empty/overlong ticker; try the cache first (read only); on a miss,
fetch from the adapter and answer from its result, without writing to the
cache. The cache state is threaded through and returned. -/
def searchStock (cache : CacheState) (now : Nat) (redisOk : Bool)
    (tickerParam : Option String) (upstream : UpstreamOutcome) :
    SearchResp × CacheState :=
  match tickerParam with
  | none => (.badRequest, cache)
  | some raw =>
      let ticker := raw.toUpper
      if ticker = "" || 20 < ticker.length then (.badRequest, cache)
      else
        match getCachedStockData cache now ticker redisOk with
        | some q => (.okResp ticker q, cache)
        | none =>
            let results := fetchStockData [ticker] upstream
            match getKey results ticker with
            | some (some q) => (.okResp ticker q, cache)
            | _ => (.notFound, cache)

/-- Ticker validation of `addToWatchlist`/`removeFromWatchlist`
(`src/controllers/stockController.js`): keep the strings of length in (0, 20)
and upper-case them before use as database keys. -/
def watchlistValidTickers (tickers : List JVal) : List String :=
  (tickers.filterMap (fun t =>
    match t with
    | JVal.str s => if 0 < s.length ∧ s.length < 20 then some s else none
    | _ => none)).map String.toUpper

/-- Concrete raw quote used to instantiate the scheduler-tick example from the
spec (master set {AAPL, MSFT}, adapter returns a quote for AAPL only). -/
def yAAPL : YQuote :=
  { symbol := some "AAPL"
    shortName := "Apple Inc."
    regularMarketPrice := 150
    regularMarketChange := 2
    regularMarketChangePercent := 1
    regularMarketVolume := 1000000
    marketState := "REGULAR"
    regularMarketTime := RawTime.dateValid 1714000000000 }

/-! ## Association-list and set lemmas -/

theorem getKey_setKey_self {α : Type} (m : List (String × α)) (k : String) (v : α) :
    getKey (setKey m k v) k = some v := by
  induction m with
  | nil => simp [setKey, getKey]
  | cons p rest ih =>
      obtain ⟨k', v'⟩ := p
      by_cases h : k' = k
      · simp [setKey, h, getKey]
      · simp [setKey, h, getKey, ih]

theorem getKey_setKey_ne {α : Type} (m : List (String × α)) (k k' : String) (v : α)
    (h : k' ≠ k) : getKey (setKey m k v) k' = getKey m k' := by
  induction m with
  | nil => simp [setKey, getKey, Ne.symm h]
  | cons p rest ih =>
      obtain ⟨k₀, v₀⟩ := p
      by_cases hk : k₀ = k
      · subst hk
        simp [setKey, getKey, Ne.symm h]
      · by_cases hk' : k₀ = k'
        · subst hk'
          simp [setKey, hk, getKey]
        · simp [setKey, hk, getKey, hk', ih]

theorem hasKey_setKey_self {α : Type} (m : List (String × α)) (k : String) (v : α) :
    hasKey (setKey m k v) k = true := by
  induction m with
  | nil => simp [setKey, hasKey]
  | cons p rest ih =>
      obtain ⟨k₀, v₀⟩ := p
      by_cases hk : k₀ = k
      · simp [setKey, hk, hasKey]
      · simp [setKey, hk, hasKey, ih]

theorem hasKey_setKey_mono {α : Type} (m : List (String × α)) (k k' : String) (v : α)
    (h : hasKey m k' = true) : hasKey (setKey m k v) k' = true := by
  induction m with
  | nil => simp [hasKey] at h
  | cons p rest ih =>
      obtain ⟨k₀, v₀⟩ := p
      by_cases hk : k₀ = k
      · subst hk
        simp [hasKey] at h
        rcases h with h | h
        · simp [setKey, hasKey, h]
        · simp [setKey, hasKey, h]
      · simp [hasKey] at h
        rcases h with h | h
        · subst h
          simp [setKey, hk, hasKey]
        · simp [setKey, hk, hasKey, ih h]

theorem hasKey_of_getKey {α : Type} (m : List (String × α)) (k : String) (v : α)
    (h : getKey m k = some v) : hasKey m k = true := by
  induction m with
  | nil => simp [getKey] at h
  | cons p rest ih =>
      obtain ⟨k₀, v₀⟩ := p
      by_cases hk : k₀ = k
      · simp [hasKey, hk]
      · simp [getKey, hk] at h
        simp [hasKey, hk, ih h]

theorem getKey_of_hasKey {α : Type} (m : List (String × α)) (k : String)
    (h : hasKey m k = true) : ∃ v, getKey m k = some v := by
  induction m with
  | nil => simp [hasKey] at h
  | cons p rest ih =>
      obtain ⟨k₀, v₀⟩ := p
      by_cases hk : k₀ = k
      · exact ⟨v₀, by simp [getKey, hk]⟩
      · simp [hasKey, hk] at h
        obtain ⟨v, hv⟩ := ih h
        exact ⟨v, by simp [getKey, hk, hv]⟩

theorem mem_insertSet (l : List String) (x y : String) :
    x ∈ insertSet l y ↔ x ∈ l ∨ x = y := by
  unfold insertSet
  by_cases h : y ∈ l
  · simp [h]
    intro hx
    subst hx
    exact h
  · simp [h]

theorem insertSet_of_mem (l : List String) (y : String) (h : y ∈ l) :
    insertSet l y = l := by
  simp [insertSet, h]

theorem subset_insertSet (l : List String) (y : String) : l ⊆ insertSet l y := by
  intro x hx
  exact (mem_insertSet l x y).mpr (Or.inl hx)

/-! ## Subscription-fold lemmas -/

theorem mem_subscribed_subStep (st : SocketState) (t : JVal) (x : String) :
    x ∈ (subStep st t).subscribedTickers ↔
      x ∈ st.subscribedTickers ∨ (t = JVal.str x ∧ x ≠ "") := by
  cases t with
  | str s =>
      by_cases hs : s = ""
      · subst hs
        simp [subStep]
        intro h
        simp [h]
      · simp [subStep, hs, mem_insertSet]
        constructor
        · rintro (h | h)
          · exact Or.inl h
          · subst h; exact Or.inr ⟨rfl, hs⟩
        · rintro (h | ⟨h, _⟩)
          · exact Or.inl h
          · cases h; exact Or.inr rfl
  | num n => simp [subStep]
  | boolean b => simp [subStep]
  | nullv => simp [subStep]
  | undef => simp [subStep]

theorem mem_rooms_subStep (st : SocketState) (t : JVal) (r : String) :
    r ∈ (subStep st t).rooms ↔
      r ∈ st.rooms ∨ (∃ s, t = JVal.str s ∧ s ≠ "" ∧ r = roomName s) := by
  cases t with
  | str s =>
      by_cases hs : s = ""
      · subst hs
        simp [subStep]
      · simp only [subStep, hs, ne_eq, not_false_iff, if_true, ite_not, if_neg, mem_insertSet]
        constructor
        · rintro (h | h)
          · exact Or.inl h
          · exact Or.inr ⟨s, rfl, hs, h⟩
        · rintro (h | ⟨s', hs', _, hr⟩)
          · exact Or.inl h
          · cases hs'
            exact Or.inr hr
  | num n => simp [subStep]
  | boolean b => simp [subStep]
  | nullv => simp [subStep]
  | undef => simp [subStep]

theorem mem_subscribed_foldl (ts : List JVal) (st : SocketState) (x : String) :
    x ∈ (ts.foldl subStep st).subscribedTickers ↔
      x ∈ st.subscribedTickers ∨ (JVal.str x ∈ ts ∧ x ≠ "") := by
  induction ts generalizing st with
  | nil => simp
  | cons t ts ih =>
      simp only [List.foldl_cons, ih, mem_subscribed_subStep, List.mem_cons]
      constructor
      · rintro ((h | ⟨h, hx⟩) | ⟨h, hx⟩)
        · exact Or.inl h
        · exact Or.inr ⟨Or.inl h.symm, hx⟩
        · exact Or.inr ⟨Or.inr h, hx⟩
      · rintro (h | ⟨h | h, hx⟩)
        · exact Or.inl (Or.inl h)
        · exact Or.inl (Or.inr ⟨h.symm, hx⟩)
        · exact Or.inr ⟨h, hx⟩

theorem mem_rooms_foldl (ts : List JVal) (st : SocketState) (r : String) :
    r ∈ (ts.foldl subStep st).rooms ↔
      r ∈ st.rooms ∨ (∃ s, JVal.str s ∈ ts ∧ s ≠ "" ∧ r = roomName s) := by
  induction ts generalizing st with
  | nil => simp
  | cons t ts ih =>
      simp only [List.foldl_cons, ih, mem_rooms_subStep, List.mem_cons]
      constructor
      · rintro ((h | ⟨s, hs, hne, hr⟩) | ⟨s, hs, hne, hr⟩)
        · exact Or.inl h
        · exact Or.inr ⟨s, Or.inl hs.symm, hne, hr⟩
        · exact Or.inr ⟨s, Or.inr hs, hne, hr⟩
      · rintro (h | ⟨s, h | h, hne, hr⟩)
        · exact Or.inl (Or.inl h)
        · exact Or.inl (Or.inr ⟨s, h.symm, hne, hr⟩)
        · exact Or.inr ⟨s, h, hne, hr⟩

theorem subStep_eq_of_mem (st : SocketState) (t : JVal)
    (h : ∀ s : String, t = JVal.str s → s ≠ "" →
      s ∈ st.subscribedTickers ∧ roomName s ∈ st.rooms) :
    subStep st t = st := by
  cases t with
  | str s =>
      by_cases hs : s = ""
      · simp [subStep, hs]
      · obtain ⟨h1, h2⟩ := h s rfl hs
        cases st with
        | mk subs rooms =>
            simp only [subStep, hs]
            simp [insertSet_of_mem _ _ h1, insertSet_of_mem _ _ h2]
  | num n => rfl
  | boolean b => rfl
  | nullv => rfl
  | undef => rfl

theorem foldl_subStep_eq_of_mem (ts : List JVal) (st : SocketState)
    (h : ∀ s : String, JVal.str s ∈ ts → s ≠ "" →
      s ∈ st.subscribedTickers ∧ roomName s ∈ st.rooms) :
    ts.foldl subStep st = st := by
  induction ts with
  | nil => rfl
  | cons t ts ih =>
      have ht : subStep st t = st :=
        subStep_eq_of_mem st t (fun s hs hne => h s (hs ▸ List.mem_cons_self t ts) hne)
      simp only [List.foldl_cons, ht]
      exact ih (fun s hs hne => h s (List.mem_cons_of_mem t hs) hne)

/-! ## Lemmas about the adapter result object -/

theorem hasKey_foldl_ensure_mono {α : Type} (v : α) (ts : List String)
    (m : List (String × α)) (x : String) (h : hasKey m x = true) :
    hasKey (ts.foldl (fun m t => if hasKey m t then m else setKey m t v) m) x = true := by
  induction ts generalizing m with
  | nil => exact h
  | cons t ts ih =>
      simp only [List.foldl_cons]
      by_cases ht : hasKey m t
      · simp only [ht, if_true]
        exact ih m h
      · simp only [ht, if_false]
        exact ih _ (hasKey_setKey_mono m t x v h)

theorem hasKey_foldl_ensure_self {α : Type} (v : α) (ts : List String)
    (m : List (String × α)) (t : String) (h : t ∈ ts) :
    hasKey (ts.foldl (fun m t => if hasKey m t then m else setKey m t v) m) t = true := by
  induction ts generalizing m with
  | nil => simp at h
  | cons t' ts ih =>
      simp only [List.foldl_cons]
      rcases List.mem_cons.mp h with h | h
      · subst h
        by_cases ht : hasKey m t
        · simp only [ht, if_true]
          exact hasKey_foldl_ensure_mono v ts m t ht
        · simp only [ht, if_false]
          exact hasKey_foldl_ensure_mono v ts _ t (hasKey_setKey_self m t v)
      · by_cases ht : hasKey m t'
        · simp only [ht, if_true]
          exact ih m h
        · simp only [ht, if_false]
          exact ih _ h

theorem getKey_foldl_setKey_const {α : Type} (v : α) (ts : List String)
    (m : List (String × α)) (t : String)
    (h : t ∈ ts ∨ getKey m t = some v) :
    getKey (ts.foldl (fun m t => setKey m t v) m) t = some v := by
  induction ts generalizing m with
  | nil =>
      rcases h with h | h
      · simp at h
      · exact h
  | cons t' ts ih =>
      simp only [List.foldl_cons]
      rcases h with h | h
      · rcases List.mem_cons.mp h with h | h
        · subst h
          exact ih _ (Or.inr (getKey_setKey_self m t v))
        · exact ih _ (Or.inl h)
      · by_cases ht : t = t'
        · subst ht
          exact ih _ (Or.inr (getKey_setKey_self m t v))
        · exact ih _ (Or.inr (by rw [getKey_setKey_ne m t' t v ht]; exact h))

theorem hasKey_ne_nil {α : Type} (m : List (String × α)) (k : String)
    (h : hasKey m k = true) : m ≠ [] := by
  intro hm
  subst hm
  simp [hasKey] at h

/-! ## Lemmas about `validEntries` and the cache layer -/

theorem mem_validEntries (results : List (String × Option Quote)) (t : String) (q : Quote) :
    (t, q) ∈ validEntries results ↔ (t, some q) ∈ results := by
  unfold validEntries
  rw [List.mem_filterMap]
  constructor
  · rintro ⟨⟨t', d⟩, hmem, hf⟩
    cases d with
    | none => simp at hf
    | some q' =>
        simp only [Option.map_some'] at hf
        injection hf with hf'
        cases hf'
        exact hmem
  · intro hmem
    exact ⟨(t, some q), hmem, rfl⟩

theorem validEntries_map_some (l : List (String × Quote)) :
    validEntries (l.map (fun p => (p.1, some p.2))) = l := by
  induction l with
  | nil => rfl
  | cons p rest ih =>
      simp only [List.map_cons, validEntries, List.filterMap_cons, Option.map_some'] at *
      rw [ih]

theorem cacheStockUpdates_map_some_true (l : List (String × Quote)) :
    cacheStockUpdates (l.map (fun p => (p.1, some p.2))) true = l := by
  cases l with
  | nil => rfl
  | cons p rest =>
      have hne : ((p :: rest).map (fun p => (p.1, some p.2))).isEmpty = false := by
        simp
      unfold cacheStockUpdates
      rw [hne]
      simp only [Bool.false_eq_true, if_false]
      have hc : ((p :: rest).map (fun p => (p.1, some p.2))).filterMap
          (fun p => p.2.map (fun q => (p.1, q))) = p :: rest := validEntries_map_some (p :: rest)
      rw [hc]
      simp

theorem cacheStockUpdates_store_fail (stockData : List (String × Option Quote)) :
    cacheStockUpdates stockData false = [] := by
  unfold cacheStockUpdates
  by_cases h : stockData.isEmpty
  · simp [h]
  · simp [h]

theorem roomName_inj {s₁ s₂ : String} (h : roomName s₁ = roomName s₂) : s₁ = s₂ := by
  unfold roomName at h
  have hd := congrArg String.data h
  rw [String.data_append, String.data_append] at hd
  exact String.ext (List.append_cancel_left hd)

/-! ## Structure of one scheduler tick -/

theorem fetchStockData_nil (up : UpstreamOutcome) (tickers : List String)
    (h : tickers.isEmpty = true) : fetchStockData tickers up = [] := by
  simp [fetchStockData, h]

theorem runPeriodicFetch_eq (db : Except Unit (List String)) (up : UpstreamOutcome)
    (b : Bool) :
    runPeriodicFetch db up b =
      ⟨if b then validEntries (fetchStockData (getMasterTickerList db) up) else [],
       validEntries (fetchStockData (getMasterTickerList db) up)⟩ := by
  by_cases h1 : (getMasterTickerList db).isEmpty
  · have hR : fetchStockData (getMasterTickerList db) up = [] :=
      fetchStockData_nil up _ h1
    simp only [runPeriodicFetch, h1, if_true, hR, validEntries, List.filterMap_nil]
    cases b <;> simp
  · simp only [runPeriodicFetch, Bool.not_eq_true] at *
    simp only [h1, Bool.false_eq_true, if_false]
    by_cases h2 : (fetchStockData (getMasterTickerList db) up).isEmpty
    · have hR : fetchStockData (getMasterTickerList db) up = [] :=
        List.isEmpty_iff.mp h2
      simp only [h2, if_true, hR, validEntries, List.filterMap_nil]
      cases b <;> simp
    · simp only [Bool.not_eq_true] at h2
      simp only [h2, Bool.false_eq_true, if_false]
      by_cases h3 : (validEntries (fetchStockData (getMasterTickerList db) up)).isEmpty
      · have h3' : validEntries (fetchStockData (getMasterTickerList db) up) = [] :=
          List.isEmpty_iff.mp h3
        simp only [h3, if_true, h3']
        cases b <;> simp
      · simp only [Bool.not_eq_true] at h3
        simp only [h3, Bool.false_eq_true, if_false]
        cases b
        · simp [cacheStockUpdates_store_fail]
        · simp [cacheStockUpdates_map_some_true]

/-! ## Claim theorems -/

/-- C1 (counterexample): subscribing to `["aapl", "AAPL", ""]` does not yield an
acknowledgement containing exactly `["AAPL"]`: `handleSubscription` echoes the
raw requested list in the `subscribed` acknowledgement, and the subscription set
receives `"aapl"` and `"AAPL"` verbatim (no trim, no uppercasing, no dedup). -/
theorem C1_subscribe_ack_cex :
    (handleSubscription freshSocket
        (SubPayload.arr [JVal.str "aapl", JVal.str "AAPL", JVal.str ""])).snd
      = [ServerMsg.subscribed [JVal.str "aapl", JVal.str "AAPL", JVal.str ""]] ∧
    [ServerMsg.subscribed [JVal.str "aapl", JVal.str "AAPL", JVal.str ""]]
      ≠ [ServerMsg.subscribed [JVal.str "AAPL"]] ∧
    (handleSubscription freshSocket
        (SubPayload.arr [JVal.str "aapl", JVal.str "AAPL", JVal.str ""])).fst.subscribedTickers
      = ["aapl", "AAPL"] := by
  refine ⟨rfl, ?_, rfl⟩
  decide

/-- C1 (amended): for a non-empty requested array, each entry that is a
non-empty string is added to the subscription set verbatim (no normalization),
non-string or empty entries are skipped individually without failing the batch,
and the acknowledgement echoes the raw requested list. -/
theorem C1_subscribe_amended (st : SocketState) (ts : List JVal) (h : ts ≠ []) :
    (handleSubscription st (SubPayload.arr ts)).snd = [ServerMsg.subscribed ts] ∧
    ∀ x : String,
      x ∈ (handleSubscription st (SubPayload.arr ts)).fst.subscribedTickers ↔
        x ∈ st.subscribedTickers ∨ (JVal.str x ∈ ts ∧ x ≠ "") := by
  have hE : ts.isEmpty = false := by simp [List.isEmpty_iff, h]
  constructor
  · simp [handleSubscription, tickersToProcess, hE]
  · intro x
    simp only [handleSubscription, tickersToProcess, hE, Bool.false_eq_true, if_false]
    exact mem_subscribed_foldl ts st x

/-- C1 (witness): the amended statement instantiated at the spec's example
request `["aapl", "AAPL", ""]` on a fresh socket. -/
theorem C1_subscribe_amended_witness :
    ([JVal.str "aapl", JVal.str "AAPL", JVal.str ""] ≠ ([] : List JVal)) ∧
    ((handleSubscription freshSocket
        (SubPayload.arr [JVal.str "aapl", JVal.str "AAPL", JVal.str ""])).snd
      = [ServerMsg.subscribed [JVal.str "aapl", JVal.str "AAPL", JVal.str ""]] ∧
    ∀ x : String,
      x ∈ (handleSubscription freshSocket
          (SubPayload.arr [JVal.str "aapl", JVal.str "AAPL", JVal.str ""])).fst.subscribedTickers ↔
        x ∈ freshSocket.subscribedTickers ∨
          (JVal.str x ∈ [JVal.str "aapl", JVal.str "AAPL", JVal.str ""] ∧ x ≠ "")) :=
  ⟨by decide, C1_subscribe_amended freshSocket _ (by decide)⟩

/-- C2 (counterexample): the hub does not upper-case symbols before using them
as room names: subscribing `"aapl"` joins room `stock_aapl` while subscribing
`"AAPL"` joins room `stock_AAPL`, and a broadcast for `"aapl"` targets
`stock_aapl` — two requests differing only in case address different groups. -/
theorem C2_uppercase_cex :
    (handleSubscription freshSocket (SubPayload.arr [JVal.str "aapl"])).fst.rooms
      = ["stock_aapl"] ∧
    (handleSubscription freshSocket (SubPayload.arr [JVal.str "AAPL"])).fst.rooms
      = ["stock_AAPL"] ∧
    (broadcastStockUpdate true (JVal.str "aapl") (processQuote yAAPL "aapl")).map Prod.fst
      = some "stock_aapl" ∧
    ("stock_aapl" : String) ≠ "stock_AAPL" := by
  refine ⟨rfl, rfl, rfl, ?_⟩
  decide

/-- C2 (amended): the websocket subscribe, unsubscribe and publish paths use the
requested ticker verbatim in the room name `stock_<ticker>`, so two symbols that
differ at all (in particular, only in letter case) address different broadcast
groups; only the REST watchlist handlers upper-case tickers before use. -/
theorem C2_room_verbatim (s₁ s₂ : String) (q : Quote)
    (h₁ : s₁ ≠ "") (hne : s₁ ≠ s₂) :
    (handleSubscription freshSocket (SubPayload.arr [JVal.str s₁])).fst.rooms
      = [roomName s₁] ∧
    (handleUnsubscription ⟨[s₁], [roomName s₁]⟩ (SubPayload.arr [JVal.str s₁])).fst
      = ⟨[], []⟩ ∧
    broadcastStockUpdate true (JVal.str s₁) q
      = some (roomName s₁, ServerMsg.stock_update s₁ q) ∧
    roomName s₁ ≠ roomName s₂ ∧
    (∀ ts x, x ∈ watchlistValidTickers ts → ∃ s, JVal.str s ∈ ts ∧ x = s.toUpper) := by
  refine ⟨?_, ?_, ?_, ?_, ?_⟩
  · simp [handleSubscription, tickersToProcess, subStep, h₁, freshSocket, insertSet]
  · simp [handleUnsubscription, tickersToProcess, unsubStep, h₁, removeSet]
  · simp [broadcastStockUpdate, h₁]
  · intro h
    exact hne (roomName_inj h)
  · intro ts x hx
    unfold watchlistValidTickers at hx
    rw [List.mem_map] at hx
    obtain ⟨s, hs, hxs⟩ := hx
    rw [List.mem_filterMap] at hs
    obtain ⟨t, ht, hf⟩ := hs
    cases t with
    | str s' =>
        by_cases hc : 0 < s'.length ∧ s'.length < 20
        · dsimp only at hf
          rw [if_pos hc] at hf
          injection hf with hf'
          subst hf'
          exact ⟨s', ht, hxs.symm⟩
        · simp [hc] at hf
    | num n => simp at hf
    | boolean b => simp at hf
    | nullv => simp at hf
    | undef => simp at hf

/-- C2 (witness): the amended statement instantiated at `"aapl"` versus
`"AAPL"` with a concrete quote. -/
theorem C2_room_verbatim_witness :
    (("aapl" : String) ≠ "" ∧ ("aapl" : String) ≠ "AAPL") ∧
    ((handleSubscription freshSocket (SubPayload.arr [JVal.str "aapl"])).fst.rooms
      = [roomName "aapl"] ∧
    (handleUnsubscription ⟨["aapl"], [roomName "aapl"]⟩
        (SubPayload.arr [JVal.str "aapl"])).fst = ⟨[], []⟩ ∧
    broadcastStockUpdate true (JVal.str "aapl") (processQuote yAAPL "aapl")
      = some (roomName "aapl", ServerMsg.stock_update "aapl" (processQuote yAAPL "aapl")) ∧
    roomName "aapl" ≠ roomName "AAPL" ∧
    (∀ ts x, x ∈ watchlistValidTickers ts → ∃ s, JVal.str s ∈ ts ∧ x = s.toUpper)) :=
  ⟨⟨by decide, by decide⟩,
    C2_room_verbatim "aapl" "AAPL" (processQuote yAAPL "aapl")
      (by decide) (by decide)⟩

/-- C8: subscribing again with a payload whose symbols are already subscribed is
a no-op: applying `handleSubscription` a second time with the same payload
leaves the socket state unchanged and produces the same acknowledgement. -/
theorem C8_subscribe_idempotent (st : SocketState) (p : SubPayload) :
    handleSubscription (handleSubscription st p).fst p = handleSubscription st p := by
  by_cases h : (tickersToProcess p).isEmpty
  · simp [handleSubscription, h]
  · have hE : (tickersToProcess p).isEmpty = false := by
      simpa using h
    simp only [handleSubscription, hE, Bool.false_eq_true, if_false]
    have hfix : (tickersToProcess p).foldl subStep
        ((tickersToProcess p).foldl subStep st) = (tickersToProcess p).foldl subStep st := by
      apply foldl_subStep_eq_of_mem
      intro s hs hne
      exact ⟨(mem_subscribed_foldl _ _ _).mpr (Or.inr ⟨hs, hne⟩),
        (mem_rooms_foldl _ _ _).mpr (Or.inr ⟨s, hs, hne, rfl⟩)⟩
    rw [hfix]

/-- C3: one scheduler tick caches and publishes exactly the entries of the
adapter result that carry a non-null quote, and no others; in particular, with
master set {AAPL, MSFT} and the adapter returning a quote for AAPL and null for
MSFT, the tick caches and publishes only AAPL. The tick is a total function of
its inputs (it cannot throw). -/
theorem C3_tick_partition (db : Except Unit (List String)) (up : UpstreamOutcome) :
    (runPeriodicFetch db up true).cached
      = validEntries (fetchStockData (getMasterTickerList db) up) ∧
    (runPeriodicFetch db up true).published
      = validEntries (fetchStockData (getMasterTickerList db) up) ∧
    (∀ t q, (t, q) ∈ (runPeriodicFetch db up true).published ↔
        (t, some q) ∈ fetchStockData (getMasterTickerList db) up) ∧
    runPeriodicFetch (Except.ok ["AAPL", "MSFT"]) (Except.ok [some yAAPL]) true
      = ⟨[("AAPL", processQuote yAAPL "AAPL")], [("AAPL", processQuote yAAPL "AAPL")]⟩ := by
  refine ⟨?_, ?_, ?_, ?_⟩
  · rw [runPeriodicFetch_eq]
    rfl
  · rw [runPeriodicFetch_eq]
  · intro t q
    rw [runPeriodicFetch_eq]
    exact mem_validEntries _ t q
  · rfl


/-- C4: for a non-empty request, every requested ticker appears as a key of the
adapter result, and a whole-batch upstream failure maps every requested ticker
to null; the adapter returns a mapping in both cases instead of letting the
exception escape (it is a total function). -/
theorem C4_adapter_total (tickers : List String) (up : UpstreamOutcome)
    (h : tickers ≠ []) :
    (∀ t ∈ tickers, hasKey (fetchStockData tickers up) t = true) ∧
    (∀ e : Unit, up = Except.error e →
      ∀ t ∈ tickers, getKey (fetchStockData tickers up) t = some none) := by
  have hE : tickers.isEmpty = false := by simp [List.isEmpty_iff, h]
  constructor
  · intro t ht
    unfold fetchStockData
    simp only [hE, Bool.false_eq_true, if_false]
    cases up with
    | error e =>
        exact hasKey_of_getKey _ _ _
          (getKey_foldl_setKey_const (none : Option Quote) tickers [] t (Or.inl ht))
    | ok raw =>
        exact hasKey_foldl_ensure_self (none : Option Quote) tickers _ t ht
  · rintro e rfl t ht
    unfold fetchStockData
    simp only [hE, Bool.false_eq_true, if_false]
    exact getKey_foldl_setKey_const (none : Option Quote) tickers [] t (Or.inl ht)

/-- C4 (witness): the adapter contract instantiated at the request
`["AAPL", "MSFT"]` with a whole-batch upstream failure. -/
theorem C4_adapter_total_witness :
    (["AAPL", "MSFT"] ≠ ([] : List String)) ∧
    ((∀ t ∈ ["AAPL", "MSFT"],
        hasKey (fetchStockData ["AAPL", "MSFT"] (Except.error ())) t = true) ∧
     (∀ e : Unit, (Except.error () : UpstreamOutcome) = Except.error e →
        ∀ t ∈ ["AAPL", "MSFT"],
          getKey (fetchStockData ["AAPL", "MSFT"] (Except.error ())) t = some none)) :=
  ⟨by decide, C4_adapter_total ["AAPL", "MSFT"] (Except.error ()) (by decide)⟩

/-- C5: when a signing secret is configured, a connection attempt whose token is
absent or whose verification fails (expired, bad signature, malformed) is
refused by the middleware: the connection handler never runs, no socket state is
created, and no message (in particular no `welcome`) is emitted. -/
theorem C5_auth_reject (secret : String) (token : Option String)
    (verify : VerifyOutcome) (sid : String)
    (h : token = none ∨ verify = VerifyOutcome.expired ∨
      verify = VerifyOutcome.badSignature ∨ verify = VerifyOutcome.malformed) :
    connectionAttempt (some secret) token verify sid = (none, []) := by
  rcases h with rfl | rfl | rfl | rfl
  · rfl
  · cases token <;> rfl
  · cases token <;> rfl
  · cases token <;> rfl

/-- C5 (witness): an expired token on a configured server is refused with no
socket state and no emitted message. -/
theorem C5_auth_reject_witness :
    ((none : Option String) = none ∨ VerifyOutcome.expired = VerifyOutcome.expired ∨
      VerifyOutcome.expired = VerifyOutcome.badSignature ∨
      VerifyOutcome.expired = VerifyOutcome.malformed) ∧
    connectionAttempt (some "topsecret") none VerifyOutcome.expired "sock1" = (none, []) :=
  ⟨Or.inl rfl, C5_auth_reject "topsecret" none VerifyOutcome.expired "sock1" (Or.inl rfl)⟩

/-- C6: a failing batched cache write is absorbed inside the cache layer
(`cacheStockUpdates` returns normally with nothing written), and the publish
step is unaffected: the tick publishes the same list whether the store works or
not, and every valid fetched quote is still published when caching fails. -/
theorem C6_cache_soft_fail (db : Except Unit (List String)) (up : UpstreamOutcome) :
    (∀ data, cacheStockUpdates data false = []) ∧
    (runPeriodicFetch db up false).published = (runPeriodicFetch db up true).published ∧
    (∀ t q, (t, some q) ∈ fetchStockData (getMasterTickerList db) up →
        (t, q) ∈ (runPeriodicFetch db up false).published) := by
  refine ⟨cacheStockUpdates_store_fail, ?_, ?_⟩
  · rw [runPeriodicFetch_eq, runPeriodicFetch_eq]
  · intro t q hm
    rw [runPeriodicFetch_eq]
    exact (mem_validEntries _ t q).mpr hm

/-- C7: a read through `getCachedStockData` after a put for the same ticker is
a miss exactly when it happens at least `CACHE_EXPIRY_SECONDS` (300 s) after
the write, and otherwise returns the last written quote; a miss and a Redis
error are both reported as a plain `none`, never raised. Concretely: hit at
t = 299 s, miss at t = 300 s and t = 301 s. -/
theorem C7_cache_ttl :
    (∀ (st : CacheState) (wt now : Nat) (ticker : String) (q : Quote),
      getCachedStockData (cachePut st wt ticker q) now ticker true
        = if wt + CACHE_EXPIRY_SECONDS ≤ now then none else some q) ∧
    (∀ (st : CacheState) (now : Nat) (ticker : String),
      getCachedStockData st now ticker false = none) ∧
    getCachedStockData (cachePut ⟨[]⟩ 0 "AAPL" (processQuote yAAPL "AAPL")) 299 "AAPL" true
      = some (processQuote yAAPL "AAPL") ∧
    getCachedStockData (cachePut ⟨[]⟩ 0 "AAPL" (processQuote yAAPL "AAPL")) 300 "AAPL" true
      = none ∧
    getCachedStockData (cachePut ⟨[]⟩ 0 "AAPL" (processQuote yAAPL "AAPL")) 301 "AAPL" true
      = none := by
  refine ⟨?_, ?_, rfl, rfl, rfl⟩
  · intro st wt now ticker q
    unfold getCachedStockData cachePut redisSetEx redisGet
    simp only [if_true, getKey_setKey_self]
    by_cases h : wt + CACHE_EXPIRY_SECONDS ≤ now
    · rw [if_neg (by omega), if_pos h]
    · rw [if_pos (by omega), if_neg h]
  · intro st now ticker
    rfl

/-- C9: the on-demand search never writes to the cache: for every input, the
cache state after `searchStock` equals the cache state before it, whether the
answer came from the cache, from the adapter, or was an error response. -/
theorem C9_search_no_cache_write (cache : CacheState) (now : Nat) (redisOk : Bool)
    (tickerParam : Option String) (up : UpstreamOutcome) :
    (searchStock cache now redisOk tickerParam up).snd = cache := by
  cases tickerParam with
  | none => rfl
  | some raw =>
      simp only [searchStock]
      split
      · rfl
      · split
        · rfl
        · split <;> rfl

/-- C10: `getMasterTickerList` absorbs a database error into an empty set (it
never throws), and with that empty master set the scheduler tick is a silent
no-op: nothing is fetched, cached or published — safe even though the call
sits outside the tick's try/catch. -/
theorem C10_db_error_noop :
    getMasterTickerList (Except.error ()) = [] ∧
    ∀ (up : UpstreamOutcome) (storeOk : Bool),
      runPeriodicFetch (Except.error ()) up storeOk = ⟨[], []⟩ := by
  refine ⟨rfl, ?_⟩
  intro up storeOk
  rfl
